import Mathlib

/-!
Verification of the french-flashcards core against its specification.

Shallow embedding of:
  * the SRS (spaced-repetition) stats engine from `src/srs_core.py`
    (`INTERVALS`, `SRSStats.update`);
  * the fuzzy answer matcher from `src/exercise_types.py`
    (`_expand_parens`, `_fuzzy_match`, difflib's `SequenceMatcher.ratio`);
  * the due-item predicate and session composer from `src/exercise_types.py`
    (`_balanced_sample`, `load_all_due`, `get_due_counts`);
  * the vocabulary synonym resolution from `_load_vocab_exercises`.

Modelling conventions:
  * Calendar dates (ISO-8601 strings in the source, compared with string
    `<=`, which on ISO dates coincides with date order) are modelled as
    integers counting days.
  * Python floats are modelled as exact rationals (`ℚ`); `int(x)` on a
    non-negative product is truncation towards zero, i.e. `Nat.floor`.
  * Python dicts used as finite maps are modelled as functions into
    `Option`; `random.shuffle` calls are modelled as explicit
    shuffle-function parameters, constrained to be permutations in the
    theorems.
-/

namespace FrenchFlashcards

/-- The `INTERVALS` table of `src/srs_core.py` (quality → days):
`{0: 0, 1: 1, 2: 3, 3: 7}`.  The source only ever indexes it with a
quality in `{0,1,2,3}`. -/
def INTERVALS : Nat → Nat
  | 1 => 1
  | 2 => 3
  | 3 => 7
  | _ => 0

/-- Per-item SRS state, mirroring class `SRSStats` of `src/srs_core.py`.
`last_reviewed` and `due_date` are day numbers (`None` = `none`);
`ease_factor` is an exact rational standing for the Python float. -/
structure SRSStats where
  times_seen : Nat
  times_correct : Nat
  last_reviewed : Option Int
  interval : Nat
  ease_factor : ℚ
  due_date : Int
deriving DecidableEq, Repr

/-- `SRSStats.update(self, quality)` from `src/srs_core.py`, with the
implicit `date.today()` passed explicitly as `today`.
Steps, exactly as in the source: bump `times_seen` (and `times_correct`
when `quality > 0`); set `last_reviewed`; update
`ease_factor = max(1.3, ef + (0.1 - (3-q)*(0.08 + (3-q)*0.02)))`;
then `interval = 0` for quality 0, the `INTERVALS` table on the first-ever
correct answer (`times_correct == 1` after the bump), otherwise
`int(interval * ease_factor)`; finally `due_date = today + interval`. -/
def SRSStats.update (s : SRSStats) (quality : Nat) (today : Int) : SRSStats :=
  let seen := s.times_seen + 1
  let correct := if 0 < quality then s.times_correct + 1 else s.times_correct
  let ef : ℚ :=
    max (13/10) (s.ease_factor + (1/10 - (3 - (quality : ℚ)) * (2/25 + (3 - (quality : ℚ)) * (1/50))))
  let itv : Nat :=
    if quality = 0 then 0
    else if correct = 1 then INTERVALS quality
    else ⌊(s.interval : ℚ) * ef⌋₊
  { times_seen := seen
    times_correct := correct
    last_reviewed := some today
    interval := itv
    ease_factor := ef
    due_date := today + itv }

/-! ### Answer matcher (`_expand_parens`, `_fuzzy_match`, difflib ratio) -/

/-- ASCII whitespace: the characters of the regex class `\s` (and of
`str.strip()`) that occur in the vocabulary data. -/
def isWs (c : Char) : Bool :=
  c = ' ' || c = '\t' || c = '\n' || c = '\r' || c = '\x0b' || c = '\x0c'

/-- Python `str.strip()` (over ASCII whitespace). -/
def pyStrip (cs : List Char) : List Char :=
  ((cs.dropWhile isWs).reverse.dropWhile isWs).reverse

/-- Python `str.lower()` on the ASCII letters occurring in the data. -/
def pyLower (cs : List Char) : List Char := cs.map Char.toLower

/-- `re.sub(r"  +", " ", s)` from `_expand_parens`: every run of two or
more spaces collapses to a single space (a lone space is left alone, so
every maximal run of spaces becomes one space).  `fuel` only bounds the
recursion; each step consumes at least one character, so the initial
fuel `cs.length` used by `collapseSpaces` can never be exhausted. -/
def collapseSpacesF : Nat → List Char → List Char
  | 0, cs => cs
  | _ + 1, [] => []
  | fuel + 1, c :: rest =>
    if c = ' ' then ' ' :: collapseSpacesF fuel (rest.dropWhile (fun d => d = ' '))
    else c :: collapseSpacesF fuel rest

/-- The space-collapsing substitution with enough fuel. -/
def collapseSpaces (cs : List Char) : List Char := collapseSpacesF cs.length cs

/-- Leftmost match of the regex `\s*\([^)]*\)\s*` in `cs`, as
half-open index span `(start, stop)`.  The leftmost match is anchored at
the first `'('` that is followed by some `')'` (if the first `'('` has
no closing `')'` after it, no later one has either); the greedy `\s*`
extend the span over the contiguous whitespace runs immediately before
the `'('` and immediately after the first `')'` following it. -/
def findParenSpan (cs : List Char) : Option (Nat × Nat) :=
  match cs.findIdx? (fun c => c = '(') with
  | none => none
  | some i =>
    match (cs.drop (i+1)).findIdx? (fun c => c = ')') with
    | none => none
    | some j =>
      let close := i + 1 + j
      let s := i - ((cs.take i).reverse.takeWhile isWs).length
      let e := close + 1 + ((cs.drop (close + 1)).takeWhile isWs).length
      some (s, e)

/-- `re.sub(r"\s*\([^)]*\)\s*", " ", s)`: repeatedly replace the
leftmost match with a single space, resuming after the replaced span
(`re.sub` does not rescan replacement text).  `fuel` bounds the number
of replacements; every replacement removes at least the two parenthesis
characters, so the initial fuel `cs.length` used by `parensSub` can
never be exhausted. -/
def parensSubF : Nat → List Char → List Char
  | 0, cs => cs
  | fuel + 1, cs =>
    match findParenSpan cs with
    | none => cs
    | some (s, e) => cs.take s ++ ' ' :: parensSubF fuel (cs.drop e)

/-- The regex substitution of `_expand_parens` with enough fuel. -/
def parensSub (cs : List Char) : List Char := parensSubF cs.length cs

/-- `text.replace("(", "").replace(")", "")` from `_expand_parens`. -/
def dropParenChars (cs : List Char) : List Char :=
  cs.filter (fun c => !(c = '(' || c = ')'))

/-- `_expand_parens` from `src/exercise_types.py`: the original text,
the text with each parenthetical (and its enclosing whitespace) replaced
by a space then stripped and space-collapsed, and the text with the
parenthesis characters deleted, stripped and space-collapsed.  The
Python function returns these as a `set`; sets are modelled as lists,
and all uses downstream (membership tests and existential scans) are
insensitive to order and duplication. -/
def expandParens (text : List Char) : List (List Char) :=
  let stripped := collapseSpaces (pyStrip (parensSub text))
  let inlined := collapseSpaces (pyStrip (dropParenChars text))
  [text, stripped, inlined]

/-- Length of the longest common prefix of two character lists. -/
def commonLen : List Char → List Char → Nat
  | a :: as, b :: bs => if a = b then commonLen as bs + 1 else 0
  | _, _ => 0

/-- difflib `SequenceMatcher.find_longest_match` over whole strings
(junk-free: autojunk only triggers on sequences of 200+ elements, far
longer than any vocabulary entry).  Returns `(i, j, k)` with
`a[i:i+k] = b[j:j+k]` and `k` maximal, ties broken towards the smallest
`i` and then the smallest `j`; `(0, 0, 0)` when there is no non-empty
common block. -/
def longestMatch (a b : List Char) : Nat × Nat × Nat :=
  (List.range a.length).foldl (fun best i =>
    (List.range b.length).foldl (fun best j =>
      let k := commonLen (a.drop i) (b.drop j)
      if best.2.2 < k then (i, j, k) else best) best) (0, 0, 0)

/-- Total size of the matching blocks of difflib's `SequenceMatcher`
(`get_matching_blocks`): take the longest match and recurse on the
pieces to its left and to its right.  `fuel` bounds the recursion
depth; every recursive call strictly decreases `a.length + b.length`,
so the initial fuel `a.length + b.length` used by `matchingTotal` can
never be exhausted. -/
def matchingTotalF : Nat → List Char → List Char → Nat
  | 0, _, _ => 0
  | fuel + 1, a, b =>
    let m := longestMatch a b
    if m.2.2 = 0 then 0
    else matchingTotalF fuel (a.take m.1) (b.take m.2.1) + m.2.2
      + matchingTotalF fuel (a.drop (m.1 + m.2.2)) (b.drop (m.2.1 + m.2.2))

/-- Total matched characters between `a` and `b`. -/
def matchingTotal (a b : List Char) : Nat := matchingTotalF (a.length + b.length) a b

/-- difflib `SequenceMatcher.ratio()`: `2*M / (len(a) + len(b))`, and
`1` when both strings are empty (`_calculate_ratio`).  `mkRat n d` is
the rational `n / d`, written this way so that the kernel can evaluate
it on concrete strings. -/
def ratioQ (a b : List Char) : ℚ :=
  if a.length + b.length = 0 then 1
  else mkRat (2 * (matchingTotal a b : Int)) (a.length + b.length)

/-- `_fuzzy_match(user, variants, threshold)` from
`src/exercise_types.py`: strip, lowercase and parenthetically expand
every variant into the accepted list, then accept on exact membership
or on a similarity ratio of at least `threshold` against some accepted
form.  The source's float threshold `0.85` is the rational `17/20`: the
ratios `2M/T` are rationals whose distance from `0.85`, when non-zero,
is at least `1/(20T)`, far above double rounding error, so the float
comparison of the source and this exact comparison agree. -/
def fuzzyMatch (user : List Char) (variants : List (List Char)) (threshold : ℚ) : Bool :=
  let accepted := (variants.map (fun v => expandParens (pyLower (pyStrip v)))).flatten
  if user ∈ accepted then true
  else accepted.any (fun answer => decide (threshold ≤ ratioQ user answer))

/-! ### Due-item selector -/

/-- A stats file, i.e. a Python dict from item key to stats, modelled
as a map into `Option`. -/
abbrev StatsMap : Type := String → Option SRSStats

/-- The due predicate shared by `get_due_counts` and the three loaders
of `src/exercise_types.py`: `stat is None or stat.due_date <= today`. -/
def isDue (stats : StatsMap) (today : Int) (key : String) : Bool :=
  match stats key with
  | none => true
  | some st => st.due_date ≤ today

/-- `dueItems(allKeys, statsMap, today)`: the sub-list of keys that are
due, exactly the enumeration-plus-filter performed per domain by
`get_due_counts` and the loaders. -/
def dueItems (allKeys : List String) (stats : StatsMap) (today : Int) : List String :=
  allKeys.filter (isDue stats today)

/-- Concrete stats map for the witness of the due-item claim, with
today = 5: key "a" has an entry due yesterday (day 4), key "c" one due
tomorrow (day 6), all other keys are absent. -/
def dueWitnessStats : StatsMap := fun key =>
  if key = "a" then some ⟨1, 1, some 4, 1, 5/2, 4⟩
  else if key = "c" then some ⟨1, 1, some 4, 1, 5/2, 6⟩
  else none

/-! ### Session composer (`_balanced_sample`, `load_all_due`) -/

/-- An exercise as the session composer sees it: its SRS key and its
domain tag (`type_name`: "Vocabulary" / "Conjugation" / "Grammar").
The prompt payload plays no role in composition. -/
structure Ex where
  domain : String
  key : String
deriving DecidableEq, Repr

/-- One domain pool as assembled by `load_all_due`: the loader's
exercises together with the domain's stats map. -/
structure DomainPool where
  exs : List Ex
  stats : StatsMap

/-- The classification loop of `load_all_due`: split a pool's exercises
into overdue (`stat.due_date < today`), due-today (the remaining
exercises having a stats entry) and new (no stats entry), preserving
the pool's order inside each tier. -/
def classify (stats : StatsMap) (today : Int) : List Ex → List Ex × List Ex × List Ex
  | [] => ([], [], [])
  | e :: rest =>
    match classify stats today rest with
    | (o, d, n) =>
      match stats e.key with
      | none => (o, d, e :: n)
      | some st => if st.due_date < today then (e :: o, d, n) else (o, e :: d, n)

/-- The per-type loop of `load_all_due`: classify, shuffle each tier
(the `random.shuffle` calls are explicit parameters, indexed by the
domain's position `i`), cap the shuffled new items at
`min newCap (maxNew - totalNew)` while accumulating `totalNew`, and
concatenate overdue ++ due-today ++ capped-new.  `newCap` stands for
the loop-invariant `max(1, max_new // max(1, len(type_pools)))` of the
source, passed in by `composeSession`. -/
def buildPrioritized (today : Int) (maxNew newCap : Nat)
    (shO shD shN : Nat → List Ex → List Ex) :
    Nat → Nat → List DomainPool → List (List Ex)
  | _, _, [] => []
  | i, totalNew, p :: rest =>
    let c := classify p.stats today p.exs
    let n := (shN i c.2.2).take (min newCap (maxNew - totalNew))
    (shO i c.1 ++ shD i c.2.1 ++ n)
      :: buildPrioritized today maxNew newCap shO shD shN (i + 1) (totalNew + n.length) rest

/-- Position-indexed shuffling of a list of pools, modelling the
`random.shuffle(exs)` loop at the top of `_balanced_sample`. -/
def shuffleEach (shP : Nat → List Ex → List Ex) : Nat → List (List Ex) → List (List Ex)
  | _, [] => []
  | i, l :: rest => shP i l :: shuffleEach shP (i + 1) rest

/-- `_balanced_sample(items_by_type, budget)` from
`src/exercise_types.py`: drop empty pools, shuffle each remaining pool,
give each pool `budget / n` slots taken from its front, pool the
leftovers, shuffle them (`shL`) and append the first `budget % n` of
them. -/
def balancedSample (shP : Nat → List Ex → List Ex) (shL : List Ex → List Ex)
    (pools : List (List Ex)) (budget : Nat) : List Ex :=
  let ps := pools.filter (fun l => !l.isEmpty)
  if ps.isEmpty then []
  else
    let shuffled := shuffleEach shP 0 ps
    let perType := budget / ps.length
    let remainder := budget % ps.length
    let selected := (shuffled.map (fun l => l.take perType)).flatten
    let leftover := (shuffled.map (fun l => l.drop perType)).flatten
    selected ++ (shL leftover).take remainder

/-- `load_all_due(max_items, max_new)` from `src/exercise_types.py`,
with the three loader results passed in as `pools` and every
`random.shuffle` an explicit parameter: build the per-domain
prioritized lists, sample a balanced session, shuffle it (`shS`). -/
def composeSession (pools : List DomainPool) (today : Int) (maxItems maxNew : Nat)
    (shO shD shN shP : Nat → List Ex → List Ex) (shL shS : List Ex → List Ex) : List Ex :=
  let newCap := max 1 (maxNew / max 1 pools.length)
  shS (balancedSample shP shL (buildPrioritized today maxNew newCap shO shD shN 0 0 pools) maxItems)

/-- An exercise is brand new when no domain's stats map knows its key.
Exercises in the overdue or due-today tier always have an entry in
their own domain's stats map, so they are never new in this sense. -/
def newEverywhere (pools : List DomainPool) (e : Ex) : Bool :=
  pools.all (fun p => (p.stats e.key).isNone)

/-- The identity shuffle, used to instantiate the shuffle parameters of
the composer theorems at concrete inputs. -/
def idSh : Nat → List Ex → List Ex := fun _ l => l

/-- Concrete vocabulary exercises `"v0", "v1", ...`. -/
def exV (i : Nat) : Ex := ⟨"Vocabulary", "v" ++ toString i⟩

/-- A stats entry that is overdue whenever today is positive. -/
def overdueStat : SRSStats := ⟨3, 2, some 0, 5, 5/2, 0⟩

/-- A finite stats map giving the overdue entry to exactly the listed
keys. -/
def overdueOn (keys : List String) : StatsMap := fun k =>
  if keys.contains k then some overdueStat else none

/-- Pools for the counterexample to the all-due-items-fit claim:
25 overdue vocabulary items, 2 overdue conjugation items and 2 overdue
grammar items at today = 10 — 29 due items in total. -/
def cePools : List DomainPool :=
  [⟨(List.range 25).map exV, overdueOn ((List.range 25).map (fun i => "v" ++ toString i))⟩,
   ⟨[⟨"Conjugation", "c0"⟩, ⟨"Conjugation", "c1"⟩], overdueOn ["c0", "c1"]⟩,
   ⟨[⟨"Grammar", "g0"⟩, ⟨"Grammar", "g1"⟩], overdueOn ["g0", "g1"]⟩]

/-- Pools for the counterexample to the per-domain new-item cap:
three domains, the first holding one brand-new item, the other two one
overdue item each (today = 10), with `maxNew = 2`. -/
def c4Pools : List DomainPool :=
  [⟨[⟨"Vocabulary", "n0"⟩], overdueOn []⟩,
   ⟨[⟨"Conjugation", "c0"⟩], overdueOn ["c0"]⟩,
   ⟨[⟨"Grammar", "g0"⟩], overdueOn ["g0"]⟩]

/-- Small pools used by composer witnesses: one domain with two overdue
items at today = 10, the other two domains empty. -/
def witPools : List DomainPool :=
  [⟨[⟨"Vocabulary", "v0"⟩, ⟨"Vocabulary", "v1"⟩], overdueOn ["v0", "v1"]⟩,
   ⟨[], overdueOn []⟩, ⟨[], overdueOn []⟩]

/-! ### Vocabulary synonym resolution (`_load_vocab_exercises`) -/

/-- A parsed vocabulary card: the `|`-split French and English variant
lists of one CSV row. -/
structure Card where
  frVars : List String
  enVars : List String
deriving DecidableEq, Repr

/-- The English normalisation of `_load_vocab_exercises`:
`eng.lower().strip()`. -/
def pynorm (s : String) : String :=
  ⟨pyStrip (pyLower s.data)⟩

/-- One step of the synonym-map construction: append `fr` to the entry
of `k` unless it is already there (`if fr not in english_to_french[k]:
english_to_french[k].append(fr)`); a missing dict entry reads as the
empty list. -/
def insertFr (m : String → List String) (k fr : String) : String → List String :=
  fun q => if q = k then (if fr ∈ m k then m k else m k ++ [fr]) else m q

/-- The reverse index `english_to_french` of `_load_vocab_exercises`:
scanning every card once, every normalised English variant maps to all
French variants of the cards sharing it, in first-seen order. -/
def engToFr (cards : List Card) : String → List String :=
  cards.foldl
    (fun m card =>
      card.enVars.foldl
        (fun m eng => card.frVars.foldl (fun m fr => insertFr m (pynorm eng) fr) m)
        m)
    (fun _ => [])

/-- The per-card `synonyms` of `_load_vocab_exercises`: every French
word of an entry sharing a normalised English meaning, minus the card's
own variants.  The source collects them in a Python `set`; the model
keeps first occurrences (downstream grading is membership-based, hence
order- and duplicate-insensitive). -/
def cardSynonyms (cards : List Card) (c : Card) : List String :=
  (((c.enVars.map (fun eng => engToFr cards (pynorm eng))).flatten).filter
    (fun fr => decide (fr ∉ c.frVars))).dedup

/-- The accepted-variant list of a French-recall question
(`VocabularyExercise.check` with `direction = "french"`):
`french_variants + french_synonyms`. -/
def frenchRecallVariants (cards : List Card) (c : Card) : List String :=
  c.frVars ++ cardSynonyms cards c

/-- `VocabularyExercise.check` on a French-recall question: strip and
lowercase the user input, then run the fuzzy matcher over the
synonym-expanded variant list (threshold 0.85 = 17/20). -/
def checkFrenchRecall (cards : List Card) (c : Card) (input : String) : Bool :=
  fuzzyMatch (pyLower (pyStrip input.data))
    ((frenchRecallVariants cards c).map (fun v => v.data)) (mkRat 17 20)

/-- The card ("chat" | "cat") of the C9 instance. -/
def chatCard : Card := ⟨["chat"], ["cat"]⟩

/-- The card ("matou" | "cat") of the C9 instance. -/
def matouCard : Card := ⟨["matou"], ["cat"]⟩

/-! ### Theorems -/

/-- Claim C5: for every prior stats state, `update` with quality 0 sets
`interval` to 0 and `due_date` to today, regardless of the previous
interval and ease factor. -/
theorem update_quality_zero (s : SRSStats) (today : Int) :
    (s.update 0 today).interval = 0 ∧ (s.update 0 today).due_date = today := by
  simp [SRSStats.update]

/-- Claim C1: for quality in `{1,2,3}`, if the update is the item's
first-ever correct review (`times_correct` becomes 1) then the new
interval is exactly the fixed bootstrap table value `INTERVALS quality`
(1/3/7 days), regardless of the prior interval; `times_correct` never
decreases; and once `times_correct ≥ 1` the post-update `times_correct`
can never be 1 again, so the bootstrap branch fires at most once in an
item's lifetime. -/
theorem update_bootstrap (s : SRSStats) (quality : Nat) (today : Int)
    (h1 : 1 ≤ quality) (h3 : quality ≤ 3) :
    ((s.update quality today).times_correct = 1 →
      (s.update quality today).interval = INTERVALS quality)
    ∧ s.times_correct ≤ (s.update quality today).times_correct
    ∧ (1 ≤ s.times_correct → (s.update quality today).times_correct ≠ 1) := by
  have hq : 0 < quality := h1
  have hq0 : quality ≠ 0 := Nat.pos_iff_ne_zero.mp hq
  refine ⟨?_, ?_, ?_⟩
  · intro hc
    simp only [SRSStats.update, if_pos hq] at hc ⊢
    simp [hq0, hc]
  · simp only [SRSStats.update, if_pos hq]
    exact Nat.le_succ _
  · intro htc
    simp only [SRSStats.update, if_pos hq]
    omega

/-- Witness for `update_bootstrap` at a fresh item and quality 2. -/
theorem update_bootstrap_witness :
    (((⟨0, 0, none, 5, 5/2, 0⟩ : SRSStats).update 2 0).times_correct = 1 →
      ((⟨0, 0, none, 5, 5/2, 0⟩ : SRSStats).update 2 0).interval = INTERVALS 2)
    ∧ (⟨0, 0, none, 5, 5/2, 0⟩ : SRSStats).times_correct
        ≤ ((⟨0, 0, none, 5, 5/2, 0⟩ : SRSStats).update 2 0).times_correct
    ∧ (1 ≤ (⟨0, 0, none, 5, 5/2, 0⟩ : SRSStats).times_correct →
        ((⟨0, 0, none, 5, 5/2, 0⟩ : SRSStats).update 2 0).times_correct ≠ 1) :=
  update_bootstrap ⟨0, 0, none, 5, 5/2, 0⟩ 2 0 (by decide) (by decide)

/-- Claim C6: for any state satisfying `times_correct ≤ times_seen` and
`ease_factor ≥ 1.3`, and any quality in `{0,1,2,3}`, `update` preserves
`times_correct ≤ times_seen`, never decreases `times_seen` or
`times_correct`, and always yields `ease_factor ≥ 1.3`. -/
theorem update_invariants (s : SRSStats) (quality : Nat) (today : Int)
    (hq : quality ≤ 3) (hts : s.times_correct ≤ s.times_seen)
    (hef : (13 : ℚ)/10 ≤ s.ease_factor) :
    (s.update quality today).times_correct ≤ (s.update quality today).times_seen
    ∧ s.times_seen ≤ (s.update quality today).times_seen
    ∧ s.times_correct ≤ (s.update quality today).times_correct
    ∧ (13 : ℚ)/10 ≤ (s.update quality today).ease_factor := by
  refine ⟨?_, ?_, ?_, ?_⟩
  · simp only [SRSStats.update]
    split <;> omega
  · simp only [SRSStats.update]
    omega
  · simp only [SRSStats.update]
    split <;> omega
  · exact le_max_left _ _

/-- Witness for `update_invariants` at a fresh item and quality 0. -/
theorem update_invariants_witness :
    (((⟨0, 0, none, 0, 5/2, 0⟩ : SRSStats).update 0 0).times_correct
        ≤ ((⟨0, 0, none, 0, 5/2, 0⟩ : SRSStats).update 0 0).times_seen)
    ∧ (⟨0, 0, none, 0, 5/2, 0⟩ : SRSStats).times_seen
        ≤ ((⟨0, 0, none, 0, 5/2, 0⟩ : SRSStats).update 0 0).times_seen
    ∧ (⟨0, 0, none, 0, 5/2, 0⟩ : SRSStats).times_correct
        ≤ ((⟨0, 0, none, 0, 5/2, 0⟩ : SRSStats).update 0 0).times_correct
    ∧ (13 : ℚ)/10 ≤ ((⟨0, 0, none, 0, 5/2, 0⟩ : SRSStats).update 0 0).ease_factor :=
  update_invariants ⟨0, 0, none, 0, 5/2, 0⟩ 0 0 (by decide) (by decide) (by norm_num)

/-- Claim C10: once an item has had its bootstrap review
(`times_correct ≥ 1`) and currently has `interval = 0` (its last review
was wrong), any further `update` with quality in `{0,1,2,3}` leaves
`interval = 0` and makes the item due today: quality 0 resets to 0, and
a correct answer takes the multiplicative branch
`⌊0 * ease_factor⌋ = 0` because the bootstrap branch needs
`times_correct = 1`.  Such an item never regains a positive interval. -/
theorem update_zero_interval_absorbing (s : SRSStats) (quality : Nat) (today : Int)
    (hq : quality ≤ 3) (htc : 1 ≤ s.times_correct) (hi : s.interval = 0) :
    (s.update quality today).interval = 0 ∧ (s.update quality today).due_date = today := by
  have hmain : (s.update quality today).interval = 0 := by
    simp only [SRSStats.update]
    by_cases h0 : quality = 0
    · simp [h0]
    · have hpos : 0 < quality := Nat.pos_of_ne_zero h0
      have hne : (if 0 < quality then s.times_correct + 1 else s.times_correct) ≠ 1 := by
        simp [hpos]; omega
      simp [h0, hne, hi]
  refine ⟨hmain, ?_⟩
  have : (s.update quality today).due_date = today + ((s.update quality today).interval : Int) := by
    simp [SRSStats.update]
  rw [this, hmain]
  simp

/-- Witness for `update_zero_interval_absorbing`: an item with one
correct answer on record but interval 0, reviewed with quality 3. -/
theorem update_zero_interval_absorbing_witness :
    ((⟨4, 1, some 0, 0, 5/2, 0⟩ : SRSStats).update 3 7).interval = 0
    ∧ ((⟨4, 1, some 0, 0, 5/2, 0⟩ : SRSStats).update 3 7).due_date = 7 :=
  update_zero_interval_absorbing ⟨4, 1, some 0, 0, 5/2, 0⟩ 3 7 (by decide) (by decide) rfl

set_option maxRecDepth 8000 in
/-- Claim C8: the fuzzy matcher accepts exactly when the input equals
one of the generated forms of some variant (the original; the variant
with parentheticals removed; the variant with only the parae deleted)
or reaches similarity ratio at least the threshold against some
generated form; in particular `check("to sit down", ["to sit (down)"])`,
`check("to sit", ["to sit (down)"])` and `check("aple", ["apple"])`
succeed, while `check("xyz", ·)` fails against both variant lists. -/
theorem fuzzyMatch_spec :
    (∀ (user : List Char) (variants : List (List Char)) (threshold : ℚ),
      fuzzyMatch user variants threshold = true ↔
        ∃ v ∈ variants, ∃ f ∈ expandParens (pyLower (pyStrip v)),
          user = f ∨ threshold ≤ ratioQ user f)
    ∧ fuzzyMatch "to sit down".toList ["to sit (down)".toList] (mkRat 17 20) = true
    ∧ fuzzyMatch "to sit".toList ["to sit (down)".toList] (mkRat 17 20) = true
    ∧ fuzzyMatch "aple".toList ["apple".toList] (mkRat 17 20) = true
    ∧ fuzzyMatch "xyz".toList ["to sit (down)".toList] (mkRat 17 20) = false
    ∧ fuzzyMatch "xyz".toList ["apple".toList] (mkRat 17 20) = false := by
  refine ⟨?_, by decide, by decide, by decide, by decide, by decide⟩
  intro user variants threshold
  have hacc : ∀ f : List Char,
      f ∈ (variants.map (fun v => expandParens (pyLower (pyStrip v)))).flatten
        ↔ ∃ v ∈ variants, f ∈ expandParens (pyLower (pyStrip v)) := by
    intro f
    simp only [List.mem_flatten, List.mem_map]
    constructor
    · rintro ⟨l, ⟨v, hv, rfl⟩, hf⟩
      exact ⟨v, hv, hf⟩
    · rintro ⟨v, hv, hf⟩
      exact ⟨_, ⟨v, hv, rfl⟩, hf⟩
  simp only [fuzzyMatch]
  by_cases hmem : user ∈ (variants.map (fun v => expandParens (pyLower (pyStrip v)))).flatten
  · simp only [if_pos hmem]
    constructor
    · intro _
      rcases (hacc user).mp hmem with ⟨v, hv, hf⟩
      exact ⟨v, hv, user, hf, Or.inl rfl⟩
    · intro _
      trivial
  · simp only [if_neg hmem, List.any_eq_true]
    constructor
    · rintro ⟨f, hf, hle⟩
      rcases (hacc f).mp hf with ⟨v, hv, hfe⟩
      exact ⟨v, hv, f, hfe, Or.inr (of_decide_eq_true hle)⟩
    · rintro ⟨v, hv, f, hfe, hor⟩
      rcases hor with rfl | hle
      · exact absurd ((hacc user).mpr ⟨v, hv, hfe⟩) hmem
      · exact ⟨f, (hacc f).mpr ⟨v, hv, hfe⟩, decide_eq_true hle⟩

/-- Claim C7: a key is selected as due iff the stats map has no entry
for it or the entry's due date is at most today; in particular a key
with no entry is due, a key due yesterday is due, and a key due
tomorrow is excluded. -/
theorem dueItems_spec (allKeys : List String) (stats : StatsMap) (today : Int)
    (key : String) :
    (key ∈ dueItems allKeys stats today ↔
      key ∈ allKeys ∧ (stats key = none ∨ ∃ st, stats key = some st ∧ st.due_date ≤ today))
    ∧ (stats key = none → isDue stats today key = true)
    ∧ (∀ st, stats key = some st → st.due_date = today - 1 → isDue stats today key = true)
    ∧ (∀ st, stats key = some st → st.due_date = today + 1 → isDue stats today key = false) := by
  refine ⟨?_, ?_, ?_, ?_⟩
  · rw [dueItems, List.mem_filter]
    constructor
    · rintro ⟨hk, hd⟩
      refine ⟨hk, ?_⟩
      rw [isDue] at hd
      rcases h : stats key with _ | st
      · exact Or.inl rfl
      · rw [h] at hd
        exact Or.inr ⟨st, rfl, by simpa using hd⟩
    · rintro ⟨hk, hd⟩
      refine ⟨hk, ?_⟩
      rw [isDue]
      rcases hd with h | ⟨st, h, hle⟩
      · rw [h]
      · rw [h]
        simpa using hle
  · intro h
    rw [isDue, h]
  · intro st h hd
    rw [isDue, h]
    simp only [decide_eq_true_eq]
    omega
  · intro st h hd
    rw [isDue, h]
    simp only [hd, decide_eq_false_iff_not]
    omega

/-- Witness for `dueItems_spec` at today = 5 and key "a" (entry due
yesterday). -/
theorem dueItems_spec_witness :
    ("a" ∈ dueItems ["a", "b", "c"] dueWitnessStats 5 ↔
      "a" ∈ ["a", "b", "c"] ∧ (dueWitnessStats "a" = none ∨
        ∃ st, dueWitnessStats "a" = some st ∧ st.due_date ≤ 5))
    ∧ (dueWitnessStats "a" = none → isDue dueWitnessStats 5 "a" = true)
    ∧ (∀ st, dueWitnessStats "a" = some st → st.due_date = 5 - 1 →
        isDue dueWitnessStats 5 "a" = true)
    ∧ (∀ st, dueWitnessStats "a" = some st → st.due_date = 5 + 1 →
        isDue dueWitnessStats 5 "a" = false) :=
  dueItems_spec ["a", "b", "c"] dueWitnessStats 5 "a"

/-- `classify` partitions its input: the three tiers concatenated are a
permutation of the pool. -/
theorem classify_perm (stats : StatsMap) (today : Int) (l : List Ex) :
    List.Perm ((classify stats today l).1 ++ (classify stats today l).2.1
      ++ (classify stats today l).2.2) l := by
  induction l with
  | nil => simp [classify]
  | cons e rest ih =>
    rcases hc : classify stats today rest with ⟨o, d, n⟩
    rw [hc] at ih
    dsimp only at ih
    rcases h : stats e.key with _ | st
    · simp only [classify, hc, h]
      exact (@List.perm_middle _ e (o ++ d) n).trans (ih.cons e)
    · simp only [classify, hc, h]
      split
      · exact ih.cons e
      · exact ((@List.perm_middle _ e o d).append_right n).trans (ih.cons e)

/-- Members of the overdue tier carry an overdue stats entry. -/
theorem classify_overdue_stats (stats : StatsMap) (today : Int) (l : List Ex) :
    ∀ x ∈ (classify stats today l).1, ∃ st, stats x.key = some st ∧ st.due_date < today := by
  induction l with
  | nil => simp [classify]
  | cons e rest ih =>
    rcases hc : classify stats today rest with ⟨o, d, n⟩
    rw [hc] at ih
    dsimp only at ih
    rcases h : stats e.key with _ | st
    · simp only [classify, hc, h]
      exact ih
    · simp only [classify, hc, h]
      split
      · dsimp only
        intro x hx
        rcases List.mem_cons.mp hx with rfl | hx
        · exact ⟨st, h, by assumption⟩
        · exact ih x hx
      · exact ih

/-- Members of the due-today tier carry a stats entry. -/
theorem classify_dueToday_stats (stats : StatsMap) (today : Int) (l : List Ex) :
    ∀ x ∈ (classify stats today l).2.1, ∃ st, stats x.key = some st := by
  induction l with
  | nil => simp [classify]
  | cons e rest ih =>
    rcases hc : classify stats today rest with ⟨o, d, n⟩
    rw [hc] at ih
    dsimp only at ih
    rcases h : stats e.key with _ | st
    · simp only [classify, hc, h]
      exact ih
    · simp only [classify, hc, h]
      split
      · exact ih
      · dsimp only
        intro x hx
        rcases List.mem_cons.mp hx with rfl | hx
        · exact ⟨st, h⟩
        · exact ih x hx

/-- Members of the new tier have no stats entry. -/
theorem classify_new_stats (stats : StatsMap) (today : Int) (l : List Ex) :
    ∀ x ∈ (classify stats today l).2.2, stats x.key = none := by
  induction l with
  | nil => simp [classify]
  | cons e rest ih =>
    rcases hc : classify stats today rest with ⟨o, d, n⟩
    rw [hc] at ih
    dsimp only at ih
    rcases h : stats e.key with _ | st
    · simp only [classify, hc, h]
      intro x hx
      rcases List.mem_cons.mp hx with rfl | hx
      · exact h
      · exact ih x hx
    · simp only [classify, hc, h]
      split
      · exact ih
      · exact ih

/-- When every pool member has a stats entry, the new tier is empty. -/
theorem classify_new_nil (stats : StatsMap) (today : Int) (l : List Ex)
    (h : ∀ e ∈ l, (stats e.key).isSome) : (classify stats today l).2.2 = [] := by
  rw [List.eq_nil_iff_forall_not_mem]
  intro x hx
  have h1 := classify_new_stats stats today l x hx
  have h2 : x ∈ l := by
    refine (classify_perm stats today l).mem_iff.mp ?_
    simp [hx]
  have h3 := h x h2
  rw [h1] at h3
  simp at h3

/-- Shuffling every pool preserves the concatenation up to permutation. -/
theorem shuffleEach_flatten_perm (shP : Nat → List Ex → List Ex)
    (h : ∀ i l, List.Perm (shP i l) l) :
    ∀ (ps : List (List Ex)) (i : Nat),
      List.Perm (shuffleEach shP i ps).flatten ps.flatten := by
  intro ps
  induction ps with
  | nil => intro i; simp [shuffleEach]
  | cons l rest ih =>
    intro i
    simp only [shuffleEach, List.flatten_cons]
    exact (h i l).append (ih (i + 1))

/-- Shuffling every pool preserves the number of pools. -/
theorem shuffleEach_length (shP : Nat → List Ex → List Ex) :
    ∀ (ps : List (List Ex)) (i : Nat), (shuffleEach shP i ps).length = ps.length := by
  intro ps
  induction ps with
  | nil => intro i; rfl
  | cons l rest ih =>
    intro i
    simp only [shuffleEach, List.length_cons, ih]

/-- Shuffling every pool preserves a uniform length bound. -/
theorem shuffleEach_length_le (shP : Nat → List Ex → List Ex)
    (h : ∀ i l, List.Perm (shP i l) l) (k : Nat) :
    ∀ (ps : List (List Ex)) (i : Nat), (∀ l ∈ ps, l.length ≤ k) →
      ∀ l2 ∈ shuffleEach shP i ps, l2.length ≤ k := by
  intro ps
  induction ps with
  | nil => intro i _ l2 h2; simp [shuffleEach] at h2
  | cons l rest ih =>
    intro i hall l2 h2
    simp only [shuffleEach, List.mem_cons] at h2
    rcases h2 with rfl | h2
    · rw [(h i l).length_eq]
      exact hall l (List.mem_cons_self l rest)
    · exact ih (i + 1) (fun x hx => hall x (List.mem_cons_of_mem l hx)) l2 h2

/-- Length bound on the selected front slices. -/
theorem flatten_takes_length_le (ls : List (List Ex)) (k : Nat) :
    ((ls.map (fun l => l.take k)).flatten).length ≤ ls.length * k := by
  induction ls with
  | nil => simp
  | cons l rest ih =>
    simp only [List.map_cons, List.flatten_cons, List.length_append, List.length_cons]
    have h1 : (l.take k).length ≤ k := List.length_take_le k l
    have h2 := ih
    calc (l.take k).length + ((rest.map (fun l => l.take k)).flatten).length
        ≤ k + rest.length * k := Nat.add_le_add h1 h2
      _ = (rest.length + 1) * k := by ring

/-- Taking `k` from lists of length at most `k` changes nothing. -/
theorem map_take_eq_self (k : Nat) :
    ∀ ls : List (List Ex), (∀ l ∈ ls, l.length ≤ k) → ls.map (fun l => l.take k) = ls := by
  intro ls
  induction ls with
  | nil => intro _; rfl
  | cons l rest ih =>
    intro hall
    simp only [List.map_cons]
    rw [List.take_of_length_le (hall l (List.mem_cons_self l rest)),
      ih (fun x hx => hall x (List.mem_cons_of_mem l hx))]

/-- Dropping `k` from lists of length at most `k` leaves nothing. -/
theorem flatten_drops_eq_nil (k : Nat) :
    ∀ ls : List (List Ex), (∀ l ∈ ls, l.length ≤ k) →
      ((ls.map (fun l => l.drop k)).flatten) = [] := by
  intro ls
  induction ls with
  | nil => intro _; rfl
  | cons l rest ih =>
    intro hall
    simp only [List.map_cons, List.flatten_cons]
    rw [List.drop_eq_nil_of_le (hall l (List.mem_cons_self l rest)),
      ih (fun x hx => hall x (List.mem_cons_of_mem l hx))]
    rfl

/-- Dropping the empty pools does not change the concatenation. -/
theorem flatten_filter_nonempty :
    ∀ ls : List (List Ex), ((ls.filter (fun l => !l.isEmpty)).flatten) = ls.flatten := by
  intro ls
  induction ls with
  | nil => rfl
  | cons l rest ih =>
    rcases l with _ | ⟨x, xs⟩
    · simpa [List.filter] using ih
    · simp only [List.filter, List.isEmpty_cons, Bool.not_false, List.flatten_cons, ih]

/-- Claim C3 (amended): every composed session has length at most
`maxItems`; and whenever every per-domain prioritized list fits into
its slot budget `maxItems / numDomainsWithItems`, the session is a
permutation of all the prioritized due items (no padding).  The
original claim — all due items are kept whenever their *total* is below
`maxItems` — is refuted by `composeSession_small_total_counterexample`:
`_balanced_sample` only refills `maxItems % numDomainsWithItems` slots
from the leftover pool, so a domain whose list exceeds its slot share
loses items even when the overall budget has room. -/
theorem composeSession_budget (pools : List DomainPool) (today : Int)
    (maxItems maxNew : Nat)
    (shO shD shN shP : Nat → List Ex → List Ex) (shL shS : List Ex → List Ex)
    (hP : ∀ i l, List.Perm (shP i l) l) (hL : ∀ l, List.Perm (shL l) l)
    (hS : ∀ l, List.Perm (shS l) l) :
    (composeSession pools today maxItems maxNew shO shD shN shP shL shS).length ≤ maxItems
    ∧ ((∀ l ∈ buildPrioritized today maxNew (max 1 (maxNew / max 1 pools.length))
          shO shD shN 0 0 pools,
        l.length ≤ maxItems / ((buildPrioritized today maxNew
          (max 1 (maxNew / max 1 pools.length)) shO shD shN 0 0 pools).filter
            (fun l => !l.isEmpty)).length) →
      List.Perm (composeSession pools today maxItems maxNew shO shD shN shP shL shS)
        ((buildPrioritized today maxNew (max 1 (maxNew / max 1 pools.length))
          shO shD shN 0 0 pools).flatten)) := by
  set P := buildPrioritized today maxNew (max 1 (maxNew / max 1 pools.length))
    shO shD shN 0 0 pools with hPdef
  have hsess : composeSession pools today maxItems maxNew shO shD shN shP shL shS
      = shS (balancedSample shP shL P maxItems) := rfl
  by_cases hps : (P.filter (fun l => !l.isEmpty)).isEmpty
  · have hbs : balancedSample shP shL P maxItems = [] := by
      rw [balancedSample]
      simp only [hps, if_pos]
    have hflat : P.flatten = [] := by
      rw [← flatten_filter_nonempty P, List.isEmpty_iff.mp hps]
      rfl
    have hnil : composeSession pools today maxItems maxNew shO shD shN shP shL shS = [] := by
      rw [hsess, hbs]
      exact (hS []).eq_nil
    constructor
    · rw [hnil]
      exact Nat.zero_le _
    · intro _
      rw [hnil, hflat]
  · have hbs : balancedSample shP shL P maxItems
        = ((shuffleEach shP 0 (P.filter (fun l => !l.isEmpty))).map
            (fun l => l.take (maxItems / (P.filter (fun l => !l.isEmpty)).length))).flatten
          ++ (shL ((shuffleEach shP 0 (P.filter (fun l => !l.isEmpty))).map
            (fun l => l.drop (maxItems / (P.filter (fun l => !l.isEmpty)).length))).flatten).take
            (maxItems % (P.filter (fun l => !l.isEmpty)).length) := by
      rw [balancedSample]
      simp only [hps, if_neg, Bool.false_eq_true, not_false_iff]
    set ps := P.filter (fun l => !l.isEmpty) with hpsdef
    set perType := maxItems / ps.length with hperdef
    constructor
    · rw [hsess, (hS _).length_eq, hbs, List.length_append]
      have h1 : (((shuffleEach shP 0 ps).map (fun l => l.take perType)).flatten).length
          ≤ ps.length * perType := by
        have := flatten_takes_length_le (shuffleEach shP 0 ps) perType
        rwa [shuffleEach_length] at this
      have h2 : ((shL ((shuffleEach shP 0 ps).map
          (fun l => l.drop perType)).flatten).take (maxItems % ps.length)).length
          ≤ maxItems % ps.length := List.length_take_le _ _
      have h3 : ps.length * (maxItems / ps.length) + maxItems % ps.length = maxItems :=
        Nat.div_add_mod maxItems ps.length
      rw [← hperdef] at h3
      omega
    · intro hfit
      have hfit2 : ∀ l ∈ ps, l.length ≤ perType := by
        intro l hl
        exact hfit l (List.mem_of_mem_filter hl)
      have hsh : ∀ l2 ∈ shuffleEach shP 0 ps, l2.length ≤ perType :=
        shuffleEach_length_le shP hP perType ps 0 hfit2
      have htake : ((shuffleEach shP 0 ps).map (fun l => l.take perType))
          = shuffleEach shP 0 ps := map_take_eq_self perType _ hsh
      have hdrop : (((shuffleEach shP 0 ps).map (fun l => l.drop perType)).flatten) = [] :=
        flatten_drops_eq_nil perType _ hsh
      rw [hsess, hbs, htake, hdrop]
      have hLnil : shL [] = [] := (hL []).eq_nil
      rw [hLnil, List.take_nil, List.append_nil]
      exact ((hS _).trans (shuffleEach_flatten_perm shP hP ps 0)).trans
        (by rw [hpsdef, flatten_filter_nonempty])

/-- Refutation of claim C3 as stated: at `cePools` (29 overdue items in
domains of sizes 25/2/2) with `maxItems = 60` and identity shuffles,
the total of prioritized due items is 29 < 60, yet item `v20` is due
and absent from the session — the session keeps only
`3 * (60 / 3) % ...` i.e. 20+2+2 = 24 items and refills `60 % 3 = 0`
slots from the leftover pool. -/
theorem composeSession_small_total_counterexample :
    ((buildPrioritized 10 10 3 idSh idSh idSh 0 0 cePools).flatten).length = 29
    ∧ (29 : Nat) < 60
    ∧ exV 20 ∈ (buildPrioritized 10 10 3 idSh idSh idSh 0 0 cePools).flatten
    ∧ exV 20 ∉ composeSession cePools 10 60 10 idSh idSh idSh idSh id id := by
  decide

/-- Witness for `composeSession_budget` at `witPools` (two overdue
vocabulary items, today 10, budget 60) and identity shuffles. -/
theorem composeSession_budget_witness :
    (composeSession witPools 10 60 10 idSh idSh idSh idSh id id).length ≤ 60
    ∧ ((∀ l ∈ buildPrioritized 10 10 (max 1 (10 / max 1 witPools.length))
          idSh idSh idSh 0 0 witPools,
        l.length ≤ 60 / ((buildPrioritized 10 10
          (max 1 (10 / max 1 witPools.length)) idSh idSh idSh 0 0 witPools).filter
            (fun l => !l.isEmpty)).length) →
      List.Perm (composeSession witPools 10 60 10 idSh idSh idSh idSh id id)
        ((buildPrioritized 10 10 (max 1 (10 / max 1 witPools.length))
          idSh idSh idSh 0 0 witPools).flatten)) :=
  composeSession_budget witPools 10 60 10 idSh idSh idSh idSh id id
    (fun _ l => List.Perm.refl l) (fun l => List.Perm.refl l) (fun l => List.Perm.refl l)

/-- Claim C2: with 100 due vocabulary items, 2 due conjugation items
and no grammar items, every 60-item session contains both conjugation
items (small pools are not starved) and exactly `60 / 2 = 30`
vocabulary items — each of the two domains with items gets
`⌊60 / 2⌋ = 30` slots, the conjugation pool fills only 2 of its slots,
and the pooled leftovers fill the remaining `60 % 2 = 0` slots — so the
session has exactly 32 items, predominantly vocabulary. -/
theorem composeSession_small_pool_inclusion
    (vexs cexs : List Ex) (vst cst gst : StatsMap) (today : Int) (maxNew : Nat)
    (shO shD shN shP : Nat → List Ex → List Ex) (shL shS : List Ex → List Ex)
    (hO : ∀ i l, List.Perm (shO i l) l) (hD : ∀ i l, List.Perm (shD i l) l)
    (hN : ∀ i l, List.Perm (shN i l) l) (hP : ∀ i l, List.Perm (shP i l) l)
    (hL : ∀ l, List.Perm (shL l) l) (hS : ∀ l, List.Perm (shS l) l)
    (hvlen : vexs.length = 100) (hclen : cexs.length = 2)
    (hvdom : ∀ e ∈ vexs, e.domain = "Vocabulary")
    (hcdom : ∀ e ∈ cexs, e.domain = "Conjugation")
    (hvdue : ∀ e ∈ vexs, ∃ st, vst e.key = some st ∧ st.due_date ≤ today)
    (hcdue : ∀ e ∈ cexs, ∃ st, cst e.key = some st ∧ st.due_date ≤ today) :
    (∀ e ∈ cexs,
      e ∈ composeSession [⟨vexs, vst⟩, ⟨cexs, cst⟩, ⟨[], gst⟩] today 60 maxNew
        shO shD shN shP shL shS)
    ∧ (composeSession [⟨vexs, vst⟩, ⟨cexs, cst⟩, ⟨[], gst⟩] today 60 maxNew
        shO shD shN shP shL shS).countP (fun e => decide (e.domain = "Vocabulary")) = 30
    ∧ (composeSession [⟨vexs, vst⟩, ⟨cexs, cst⟩, ⟨[], gst⟩] today 60 maxNew
        shO shD shN shP shL shS).length = 32 := by
  have hvsome : ∀ e ∈ vexs, (vst e.key).isSome := by
    intro e he
    rcases hvdue e he with ⟨st, h, _⟩
    rw [h]
    rfl
  have hcsome : ∀ e ∈ cexs, (cst e.key).isSome := by
    intro e he
    rcases hcdue e he with ⟨st, h, _⟩
    rw [h]
    rfl
  rcases hv : classify vst today vexs with ⟨ov, dv, nv⟩
  rcases hcc : classify cst today cexs with ⟨oc, dc, nc⟩
  have hnv : nv = [] := by
    have h1 := classify_new_nil vst today vexs hvsome
    rw [hv] at h1
    exact h1
  have hnc : nc = [] := by
    have h1 := classify_new_nil cst today cexs hcsome
    rw [hcc] at h1
    exact h1
  subst hnv
  subst hnc
  have hvperm : List.Perm (ov ++ dv) vexs := by
    have h1 := classify_perm vst today vexs
    rw [hv] at h1
    simpa using h1
  have hcperm : List.Perm (oc ++ dc) cexs := by
    have h1 := classify_perm cst today cexs
    rw [hcc] at h1
    simpa using h1
  set A := shO 0 ov ++ shD 0 dv with hA
  set B := shO 1 oc ++ shD 1 dc with hB
  have hl0 : A.length = 100 := by
    rw [hA, List.length_append, (hO 0 ov).length_eq, (hD 0 dv).length_eq,
      ← List.length_append, hvperm.length_eq, hvlen]
  have hl1 : B.length = 2 := by
    rw [hB, List.length_append, (hO 1 oc).length_eq, (hD 1 dc).length_eq,
      ← List.length_append, hcperm.length_eq, hclen]
  have hPeq : ∀ cap : Nat, buildPrioritized today maxNew cap shO shD shN 0 0
      [⟨vexs, vst⟩, ⟨cexs, cst⟩, ⟨[], gst⟩] = [A, B, []] := by
    intro cap
    simp only [buildPrioritized, hv, hcc, classify, (hN 0 []).eq_nil, (hN 1 []).eq_nil,
      (hN 2 []).eq_nil, (hO 2 []).eq_nil, (hD 2 []).eq_nil, List.take_nil, List.length_nil,
      Nat.add_zero, List.append_nil, hA, hB]
  have hAne : A ≠ [] := by
    intro h
    rw [h] at hl0
    simp at hl0
  have hBne : B ≠ [] := by
    intro h
    rw [h] at hl1
    simp at hl1
  have hfil : ([A, B, ([] : List Ex)]).filter (fun l => !l.isEmpty) = [A, B] := by
    simp [List.filter_cons, hAne, hBne]
  have hBfull : (shP 1 B).take 30 = shP 1 B :=
    List.take_of_length_le (by rw [(hP 1 B).length_eq, hl1]; omega)
  have hbal : balancedSample shP shL [A, B, ([] : List Ex)] 60
      = (shP 0 A).take 30 ++ shP 1 B := by
    rw [balancedSample]
    simp only [hfil]
    norm_num [shuffleEach, hBfull, List.isEmpty_cons]
  have hsess : composeSession [⟨vexs, vst⟩, ⟨cexs, cst⟩, ⟨[], gst⟩] today 60 maxNew
      shO shD shN shP shL shS = shS ((shP 0 A).take 30 ++ shP 1 B) := by
    rw [composeSession, hPeq, hbal]
  have hAdom : ∀ x ∈ A, x.domain = "Vocabulary" := by
    intro x hx
    rw [hA] at hx
    rcases List.mem_append.mp hx with hx | hx
    · exact hvdom x (hvperm.mem_iff.mp (List.mem_append_left dv ((hO 0 ov).mem_iff.mp hx)))
    · exact hvdom x (hvperm.mem_iff.mp (List.mem_append_right ov ((hD 0 dv).mem_iff.mp hx)))
  have hBdom : ∀ x ∈ B, x.domain = "Conjugation" := by
    intro x hx
    rw [hB] at hx
    rcases List.mem_append.mp hx with hx | hx
    · exact hcdom x (hcperm.mem_iff.mp (List.mem_append_left dc ((hO 1 oc).mem_iff.mp hx)))
    · exact hcdom x (hcperm.mem_iff.mp (List.mem_append_right oc ((hD 1 dc).mem_iff.mp hx)))
  refine ⟨?_, ?_, ?_⟩
  · intro e he
    rw [hsess, (hS _).mem_iff]
    refine List.mem_append_right _ ?_
    rw [(hP 1 B).mem_iff, hB]
    have h1 : e ∈ oc ++ dc := hcperm.mem_iff.mpr he
    rcases List.mem_append.mp h1 with h1 | h1
    · exact List.mem_append_left _ ((hO 1 oc).mem_iff.mpr h1)
    · exact List.mem_append_right _ ((hD 1 dc).mem_iff.mpr h1)
  · rw [hsess, (hS _).countP_eq, List.countP_append]
    have c1 : ((shP 0 A).take 30).countP (fun e => decide (e.domain = "Vocabulary")) = 30 := by
      have hall : ∀ x ∈ (shP 0 A).take 30,
          (fun e => decide (e.domain = "Vocabulary")) x = true := by
        intro x hx
        have hxA : x ∈ A := (hP 0 A).mem_iff.mp (List.take_subset _ _ hx)
        simp [hAdom x hxA]
      rw [List.countP_eq_length.mpr hall, List.length_take, (hP 0 A).length_eq, hl0]
      norm_num
    have c2 : (shP 1 B).countP (fun e => decide (e.domain = "Vocabulary")) = 0 := by
      rw [List.countP_eq_zero]
      intro x hx
      have hxB : x ∈ B := (hP 1 B).mem_iff.mp hx
      simp [hBdom x hxB]
    rw [c1, c2]
  · rw [hsess, (hS _).length_eq, List.length_append, List.length_take, (hP 0 A).length_eq,
      hl0, (hP 1 B).length_eq, hl1]
    norm_num

/-- Witness for `composeSession_small_pool_inclusion` at 100 concrete
overdue vocabulary items, 2 overdue conjugation items and identity
shuffles. -/
theorem composeSession_small_pool_inclusion_witness :
    (∀ e ∈ [(⟨"Conjugation", "c0"⟩ : Ex), ⟨"Conjugation", "c1"⟩],
      e ∈ composeSession [⟨(List.range 100).map exV, fun _ => some overdueStat⟩,
        ⟨[⟨"Conjugation", "c0"⟩, ⟨"Conjugation", "c1"⟩], fun _ => some overdueStat⟩,
        ⟨[], fun _ => none⟩] 10 60 10 idSh idSh idSh idSh id id)
    ∧ (composeSession [⟨(List.range 100).map exV, fun _ => some overdueStat⟩,
        ⟨[⟨"Conjugation", "c0"⟩, ⟨"Conjugation", "c1"⟩], fun _ => some overdueStat⟩,
        ⟨[], fun _ => none⟩] 10 60 10 idSh idSh idSh idSh id id).countP
          (fun e => decide (e.domain = "Vocabulary")) = 30
    ∧ (composeSession [⟨(List.range 100).map exV, fun _ => some overdueStat⟩,
        ⟨[⟨"Conjugation", "c0"⟩, ⟨"Conjugation", "c1"⟩], fun _ => some overdueStat⟩,
        ⟨[], fun _ => none⟩] 10 60 10 idSh idSh idSh idSh id id).length = 32 :=
  composeSession_small_pool_inclusion ((List.range 100).map exV)
    [⟨"Conjugation", "c0"⟩, ⟨"Conjugation", "c1"⟩]
    (fun _ => some overdueStat) (fun _ => some overdueStat) (fun _ => none) 10 10
    idSh idSh idSh idSh id id
    (fun _ l => List.Perm.refl l) (fun _ l => List.Perm.refl l)
    (fun _ l => List.Perm.refl l) (fun _ l => List.Perm.refl l)
    (fun l => List.Perm.refl l) (fun l => List.Perm.refl l)
    (by simp) (by rfl)
    (fun e he => by rcases List.mem_map.mp he with ⟨i, _, rfl⟩; rfl)
    (by decide)
    (fun e he => ⟨overdueStat, rfl, by decide⟩)
    (fun e he => ⟨overdueStat, rfl, by decide⟩)

/-- Counting over a front slice plus the matching back slice. -/
theorem countP_take_drop (p : Ex → Bool) (l : List Ex) (k : Nat) :
    l.countP p = (l.take k).countP p + (l.drop k).countP p := by
  conv_lhs => rw [← List.take_append_drop k l]
  rw [List.countP_append]

/-- The selected front slices and the leftovers together count exactly
like the full pools. -/
theorem countP_flatten_take_drop (p : Ex → Bool) (k : Nat) :
    ∀ ls : List (List Ex),
      ((ls.map (fun l => l.take k)).flatten).countP p
        + ((ls.map (fun l => l.drop k)).flatten).countP p
      = (ls.flatten).countP p := by
  intro ls
  induction ls with
  | nil => rfl
  | cons l rest ih =>
    simp only [List.map_cons, List.flatten_cons, List.countP_append]
    have h1 := countP_take_drop p l k
    omega

/-- The new-item bookkeeping of `load_all_due`: over any tail of the
pool list with `totalNew = acc` already used, the prioritized lists as
a whole contain at most `maxNew - acc` brand-new items, and each single
prioritized list contains at most `newCap` of them. -/
theorem buildPrioritized_new_le (today : Int) (maxNew newCap : Nat)
    (shO shD shN : Nat → List Ex → List Ex)
    (hO : ∀ i l, List.Perm (shO i l) l) (hD : ∀ i l, List.Perm (shD i l) l)
    (full : List DomainPool) :
    ∀ pools : List DomainPool, (∀ p ∈ pools, p ∈ full) →
      ∀ i acc : Nat,
      ((buildPrioritized today maxNew newCap shO shD shN i acc pools).flatten).countP
          (newEverywhere full) ≤ maxNew - acc
      ∧ ∀ l ∈ buildPrioritized today maxNew newCap shO shD shN i acc pools,
          l.countP (newEverywhere full) ≤ newCap := by
  intro pools
  induction pools with
  | nil =>
    intro _ i acc
    constructor
    · simp [buildPrioritized]
    · simp [buildPrioritized]
  | cons p rest ih =>
    intro hfull i acc
    have hpfull : p ∈ full := hfull p (List.mem_cons_self p rest)
    have hrest := ih (fun q hq => hfull q (List.mem_cons_of_mem p hq))
    rcases hclas : classify p.stats today p.exs with ⟨o, d, n⟩
    have ho0 : (shO i o).countP (newEverywhere full) = 0 := by
      rw [List.countP_eq_zero]
      intro x hx
      have hxo : x ∈ o := (hO i o).mem_iff.mp hx
      have h1 := classify_overdue_stats p.stats today p.exs x
      rw [hclas] at h1
      rcases h1 hxo with ⟨st, hst, _⟩
      simp only [newEverywhere, List.all_eq_true, not_forall]
      exact ⟨p, ⟨hpfull, by simp [hst]⟩⟩
    have hd0 : (shD i d).countP (newEverywhere full) = 0 := by
      rw [List.countP_eq_zero]
      intro x hx
      have hxd : x ∈ d := (hD i d).mem_iff.mp hx
      have h1 := classify_dueToday_stats p.stats today p.exs x
      rw [hclas] at h1
      rcases h1 hxd with ⟨st, hst⟩
      simp only [newEverywhere, List.all_eq_true, not_forall]
      exact ⟨p, ⟨hpfull, by simp [hst]⟩⟩
    have hstep : buildPrioritized today maxNew newCap shO shD shN i acc (p :: rest)
        = (shO i o ++ shD i d ++ (shN i n).take (min newCap (maxNew - acc)))
          :: buildPrioritized today maxNew newCap shO shD shN (i + 1)
            (acc + ((shN i n).take (min newCap (maxNew - acc))).length) rest := by
      simp only [buildPrioritized, hclas]
    set t := ((shN i n).take (min newCap (maxNew - acc))).length with ht
    have htle : t ≤ min newCap (maxNew - acc) := List.length_take_le _ _
    have hhead : (shO i o ++ shD i d ++ (shN i n).take (min newCap (maxNew - acc))).countP
        (newEverywhere full) ≤ t := by
      rw [List.countP_append, List.countP_append, ho0, hd0]
      simpa using List.countP_le_length _
    rcases hrest (i + 1) (acc + t) with ⟨hr1, hr2⟩
    constructor
    · rw [hstep, List.flatten_cons, List.countP_append]
      omega
    · intro l hl
      rw [hstep, List.mem_cons] at hl
      rcases hl with rfl | hl
      · omega
      · exact hr2 l hl

/-- Claim C4 (amended): every composed session contains at most
`maxNew` items that no stats map knows (brand-new items), and each
domain's prioritized list contributes at most
`max 1 (maxNew / numDomains)` of them — the per-domain cap of
`load_all_due` is `max(1, max_new // max(1, len(type_pools)))`, not
`maxNew / numDomains`: for `maxNew < numDomains` a domain may still
contribute one new item, refuted for the original wording by
`composeSession_new_cap_counterexample`. -/
theorem composeSession_new_cap (pools : List DomainPool) (today : Int)
    (maxItems maxNew : Nat)
    (shO shD shN shP : Nat → List Ex → List Ex) (shL shS : List Ex → List Ex)
    (hO : ∀ i l, List.Perm (shO i l) l) (hD : ∀ i l, List.Perm (shD i l) l)
    (hP : ∀ i l, List.Perm (shP i l) l) (hL : ∀ l, List.Perm (shL l) l)
    (hS : ∀ l, List.Perm (shS l) l) :
    (composeSession pools today maxItems maxNew shO shD shN shP shL shS).countP
        (newEverywhere pools) ≤ maxNew
    ∧ ∀ l ∈ buildPrioritized today maxNew (max 1 (maxNew / max 1 pools.length))
        shO shD shN 0 0 pools,
      l.countP (newEverywhere pools) ≤ max 1 (maxNew / max 1 pools.length) := by
  set P := buildPrioritized today maxNew (max 1 (maxNew / max 1 pools.length))
    shO shD shN 0 0 pools with hPdef
  have hmain := buildPrioritized_new_le today maxNew (max 1 (maxNew / max 1 pools.length))
    shO shD shN hO hD pools pools (fun p hp => hp) 0 0
  rw [← hPdef] at hmain
  refine ⟨?_, hmain.2⟩
  have hsess : composeSession pools today maxItems maxNew shO shD shN shP shL shS
      = shS (balancedSample shP shL P maxItems) := rfl
  rw [hsess, (hS _).countP_eq]
  have hflatle : (P.flatten).countP (newEverywhere pools) ≤ maxNew := by
    have := hmain.1
    omega
  by_cases hps : (P.filter (fun l => !l.isEmpty)).isEmpty
  · have hbs : balancedSample shP shL P maxItems = [] := by
      rw [balancedSample]
      simp only [hps, if_pos]
    rw [hbs]
    simp
  · have hbs : balancedSample shP shL P maxItems
        = ((shuffleEach shP 0 (P.filter (fun l => !l.isEmpty))).map
            (fun l => l.take (maxItems / (P.filter (fun l => !l.isEmpty)).length))).flatten
          ++ (shL ((shuffleEach shP 0 (P.filter (fun l => !l.isEmpty))).map
            (fun l => l.drop (maxItems / (P.filter (fun l => !l.isEmpty)).length))).flatten).take
            (maxItems % (P.filter (fun l => !l.isEmpty)).length) := by
      rw [balancedSample]
      simp only [hps, if_neg, Bool.false_eq_true, not_false_iff]
    rw [hbs, List.countP_append]
    set ps := P.filter (fun l => !l.isEmpty) with hpsdef
    set k := maxItems / ps.length with hkdef
    have h1 : ((shL ((shuffleEach shP 0 ps).map (fun l => l.drop k)).flatten).take
        (maxItems % ps.length)).countP (newEverywhere pools)
        ≤ (((shuffleEach shP 0 ps).map (fun l => l.drop k)).flatten).countP
            (newEverywhere pools) := by
      have h2 := countP_take_drop (newEverywhere pools)
        (shL ((shuffleEach shP 0 ps).map (fun l => l.drop k)).flatten) (maxItems % ps.length)
      have h3 := (hL (((shuffleEach shP 0 ps).map (fun l => l.drop k)).flatten)).countP_eq
        (newEverywhere pools)
      omega
    have h4 := countP_flatten_take_drop (newEverywhere pools) k (shuffleEach shP 0 ps)
    have h5 := (shuffleEach_flatten_perm shP hP ps 0).countP_eq (newEverywhere pools)
    have h6 : (ps.flatten).countP (newEverywhere pools)
        = (P.flatten).countP (newEverywhere pools) := by
      rw [hpsdef, flatten_filter_nonempty]
    omega

/-- Refutation of claim C4 as stated: with three domains, `maxNew = 2`
and one brand-new item in the first domain, the session contains that
new item, so the first domain contributes `1 > 0 = maxNew / numDomains`
new items — the source caps per-domain new items at
`max(1, max_new // max(1, len(type_pools)))`, which never drops below
one. -/
theorem composeSession_new_cap_counterexample :
    (composeSession c4Pools 10 60 2 idSh idSh idSh idSh id id).countP
        (newEverywhere c4Pools) = 1
    ∧ (⟨"Vocabulary", "n0"⟩ : Ex) ∈ composeSession c4Pools 10 60 2 idSh idSh idSh idSh id id
    ∧ newEverywhere c4Pools ⟨"Vocabulary", "n0"⟩ = true
    ∧ (2 : Nat) / 3 = 0 := by
  decide

/-- Witness for `composeSession_new_cap` at `witPools` (two overdue
vocabulary items, no new items), `maxNew = 10` and identity shuffles. -/
theorem composeSession_new_cap_witness :
    (composeSession witPools 10 60 10 idSh idSh idSh idSh id id).countP
        (newEverywhere witPools) ≤ 10
    ∧ ∀ l ∈ buildPrioritized 10 10 (max 1 (10 / max 1 witPools.length))
        idSh idSh idSh 0 0 witPools,
      l.countP (newEverywhere witPools) ≤ max 1 (10 / max 1 witPools.length) :=
  composeSession_new_cap witPools 10 60 10 idSh idSh idSh idSh id id
    (fun _ l => List.Perm.refl l) (fun _ l => List.Perm.refl l)
    (fun _ l => List.Perm.refl l) (fun l => List.Perm.refl l) (fun l => List.Perm.refl l)

/-- Membership after one `insertFr` step. -/
theorem insertFr_mem (m : String → List String) (k fr q x : String) :
    x ∈ insertFr m k fr q ↔ x ∈ m q ∨ (q = k ∧ x = fr) := by
  rw [insertFr]
  by_cases hq : q = k
  · rw [if_pos hq]
    subst hq
    by_cases hf : fr ∈ m q
    · rw [if_pos hf]
      constructor
      · exact fun h => Or.inl h
      · rintro (h | ⟨_, rfl⟩)
        · exact h
        · exact hf
    · rw [if_neg hf, List.mem_append, List.mem_singleton]
      constructor
      · rintro (h | rfl)
        · exact Or.inl h
        · exact Or.inr ⟨rfl, rfl⟩
      · rintro (h | ⟨_, rfl⟩)
        · exact Or.inl h
        · exact Or.inr rfl
  · rw [if_neg hq]
    constructor
    · exact fun h => Or.inl h
    · rintro (h | ⟨hk, _⟩)
      · exact h
      · exact absurd hk hq

/-- Membership after folding `insertFr` over a French-variant list. -/
theorem foldl_insertFr_mem (k : String) :
    ∀ (frs : List String) (m : String → List String) (q x : String),
      x ∈ (frs.foldl (fun m fr => insertFr m k fr) m) q
        ↔ x ∈ m q ∨ (q = k ∧ x ∈ frs) := by
  intro frs
  induction frs with
  | nil =>
    intro m q x
    simp
  | cons f rest ih =>
    intro m q x
    simp only [List.foldl_cons]
    rw [ih, insertFr_mem]
    constructor
    · rintro ((h | ⟨hk, rfl⟩) | ⟨hk, hx⟩)
      · exact Or.inl h
      · exact Or.inr ⟨hk, List.mem_cons_self _ _⟩
      · exact Or.inr ⟨hk, List.mem_cons_of_mem _ hx⟩
    · rintro (h | ⟨hk, hx⟩)
      · exact Or.inl (Or.inl h)
      · rcases List.mem_cons.mp hx with rfl | hx
        · exact Or.inl (Or.inr ⟨hk, rfl⟩)
        · exact Or.inr ⟨hk, hx⟩

/-- Membership after processing all English variants of one card. -/
theorem foldl_card_mem (frs : List String) :
    ∀ (engs : List String) (m : String → List String) (q x : String),
      x ∈ (engs.foldl (fun m eng => frs.foldl (fun m fr => insertFr m (pynorm eng) fr) m) m) q
        ↔ x ∈ m q ∨ ((∃ e ∈ engs, q = pynorm e) ∧ x ∈ frs) := by
  intro engs
  induction engs with
  | nil =>
    intro m q x
    simp
  | cons e rest ih =>
    intro m q x
    simp only [List.foldl_cons]
    rw [ih, foldl_insertFr_mem]
    constructor
    · rintro ((h | ⟨hk, hx⟩) | ⟨⟨e2, he2, hk⟩, hx⟩)
      · exact Or.inl h
      · exact Or.inr ⟨⟨e, List.mem_cons_self _ _, hk⟩, hx⟩
      · exact Or.inr ⟨⟨e2, List.mem_cons_of_mem _ he2, hk⟩, hx⟩
    · rintro (h | ⟨⟨e2, he2, hk⟩, hx⟩)
      · exact Or.inl (Or.inl h)
      · rcases List.mem_cons.mp he2 with rfl | he2
        · exact Or.inl (Or.inr ⟨hk, hx⟩)
        · exact Or.inr ⟨⟨e2, he2, hk⟩, hx⟩

/-- Characterisation of the reverse index: a French word stands under a
normalised English key iff some card couples them. -/
theorem engToFr_spec (cards : List Card) (q x : String) :
    x ∈ engToFr cards q
      ↔ ∃ c ∈ cards, (∃ e ∈ c.enVars, q = pynorm e) ∧ x ∈ c.frVars := by
  rw [engToFr]
  suffices h : ∀ (cs : List Card) (m : String → List String),
      x ∈ (cs.foldl (fun m card => card.enVars.foldl
          (fun m eng => card.frVars.foldl (fun m fr => insertFr m (pynorm eng) fr) m) m) m) q
        ↔ x ∈ m q ∨ ∃ c ∈ cs, (∃ e ∈ c.enVars, q = pynorm e) ∧ x ∈ c.frVars by
    rw [h cards (fun _ => [])]
    simp
  intro cs
  induction cs with
  | nil =>
    intro m
    simp
  | cons c rest ih =>
    intro m
    simp only [List.foldl_cons]
    rw [ih, foldl_card_mem]
    constructor
    · rintro ((h | hc) | ⟨c2, hc2, h2⟩)
      · exact Or.inl h
      · exact Or.inr ⟨c, List.mem_cons_self _ _, hc⟩
      · exact Or.inr ⟨c2, List.mem_cons_of_mem _ hc2, h2⟩
    · rintro (h | ⟨c2, hc2, h2⟩)
      · exact Or.inl (Or.inl h)
      · rcases List.mem_cons.mp hc2 with rfl | hc2
        · exact Or.inl (Or.inr h2)
        · exact Or.inr ⟨c2, hc2, h2⟩

/-- Claim C9: the accepted-variant set of a French-recall question is
the union of the card's own French variants and all French words of any
entry sharing one of its normalised English meanings; and an input
whose stripped lowercase form equals a variant's is accepted by
`check`.  In particular (see the witness) with cards ("chat" | "cat")
and ("matou" | "cat"), a French-recall question for either card accepts
both "chat" and "matou". -/
theorem frenchRecall_synonyms (cards : List Card) (c : Card) (fr input : String)
    (hc : c ∈ cards) :
    (fr ∈ frenchRecallVariants cards c ↔
      fr ∈ c.frVars ∨ ∃ c2 ∈ cards,
        (∃ e ∈ c.enVars, ∃ e2 ∈ c2.enVars, pynorm e2 = pynorm e) ∧ fr ∈ c2.frVars)
    ∧ (pyLower (pyStrip input.data) ∈ (frenchRecallVariants cards c).map
          (fun v => pyLower (pyStrip v.data)) →
        checkFrenchRecall cards c input = true) := by
  constructor
  · rw [frenchRecallVariants, List.mem_append, cardSynonyms, List.mem_dedup, List.mem_filter]
    constructor
    · rintro (h | ⟨hmem, hnot⟩)
      · exact Or.inl h
      · rcases List.mem_flatten.mp hmem with ⟨l, hl, hfl⟩
        rcases List.mem_map.mp hl with ⟨eng, heng, rfl⟩
        rcases (engToFr_spec cards (pynorm eng) fr).mp hfl with ⟨c2, hc2, ⟨e2, he2, hqe⟩, hfr2⟩
        exact Or.inr ⟨c2, hc2, ⟨eng, heng, e2, he2, hqe.symm⟩, hfr2⟩
    · rintro (h | ⟨c2, hc2, ⟨e, he, e2, he2, heq⟩, hfr2⟩)
      · exact Or.inl h
      · by_cases hin : fr ∈ c.frVars
        · exact Or.inl hin
        · refine Or.inr ⟨?_, by simpa using hin⟩
          refine List.mem_flatten.mpr ⟨engToFr cards (pynorm e), ?_, ?_⟩
          · exact List.mem_map.mpr ⟨e, he, rfl⟩
          · exact (engToFr_spec cards (pynorm e) fr).mpr ⟨c2, hc2, ⟨e2, he2, heq.symm⟩, hfr2⟩
  · intro hin
    rcases List.mem_map.mp hin with ⟨v0, hv0, hveq⟩
    rw [checkFrenchRecall, fuzzyMatch]
    have hacc : pyLower (pyStrip input.data)
        ∈ (((frenchRecallVariants cards c).map (fun v => v.data)).map
            (fun v => expandParens (pyLower (pyStrip v)))).flatten := by
      refine List.mem_flatten.mpr ⟨expandParens (pyLower (pyStrip v0.data)), ?_, ?_⟩
      · exact List.mem_map.mpr ⟨v0.data, List.mem_map.mpr ⟨v0, hv0, rfl⟩, rfl⟩
      · rw [hveq]
        simp only [expandParens]
        exact List.mem_cons_self _ _
    rw [if_pos hacc]

/-- Witness for `frenchRecall_synonyms`: with the concrete cards
("chat" | "cat") and ("matou" | "cat"), both "chat" and "matou" are
accepted for either card's French-recall question. -/
theorem frenchRecall_synonyms_witness :
    checkFrenchRecall [chatCard, matouCard] chatCard "chat" = true
    ∧ checkFrenchRecall [chatCard, matouCard] chatCard "matou" = true
    ∧ checkFrenchRecall [chatCard, matouCard] matouCard "chat" = true
    ∧ checkFrenchRecall [chatCard, matouCard] matouCard "matou" = true :=
  ⟨(frenchRecall_synonyms [chatCard, matouCard] chatCard "chat" "chat"
      (by decide)).2 (by decide),
   (frenchRecall_synonyms [chatCard, matouCard] chatCard "matou" "matou"
      (by decide)).2 (by decide),
   (frenchRecall_synonyms [chatCard, matouCard] matouCard "chat" "chat"
      (by decide)).2 (by decide),
   (frenchRecall_synonyms [chatCard, matouCard] matouCard "matou" "matou"
      (by decide)).2 (by decide)⟩

end FrenchFlashcards
